import Mathlib

/-!
Verification of the membership accounting and reward-attribution engine of
the keep-billings repository.  Go `big.Float` / `big.Int` arithmetic is
embedded as exact rationals / integers; fallible data-source calls are
embedded as `Except String` values; Go maps handed over by the data source
are embedded as association lists in their iteration order.
-/

namespace KeepBillings

/-- Embeds Go `strings.ToLower` as it is used on hex-encoded addresses
(ASCII case folding, character by character). -/
def lower (s : String) : String :=
  String.mk (s.data.map Char.toLower)

/-- Embeds the `group` struct of `pkg/billing` (beacon report generator):
chain index, activity flag, public key (byte slice) and the member map
`map[int]string` as an association list of (slot index, address) pairs in
iteration order. -/
structure Group where
  index : Int
  isActive : Bool
  publicKey : List Nat
  members : List (Nat × String)
deriving DecidableEq

/-- Embeds the `keep` struct of the ecdsa report generator. -/
structure Keep where
  index : Int
  isActive : Bool
  address : String
  members : List String
deriving DecidableEq

/-- Embeds `chain.WeiToEth`: the wei amount as a decimal divided by 10^18. -/
def WeiToEth (wei : Int) : ℚ :=
  (wei : ℚ) / 10 ^ 18

/-- Embeds `countActiveGroupMembers` of `pkg/billing/beacon.go`: the number
of (slot index, address) pairs of the group whose address equals the
operator after lowercasing both sides. -/
def countActiveGroupMembers (operator : String) (g : Group) : Nat :=
  (g.members.filter (fun m => lower operator == lower m.2)).length

/-- Embeds `getGroupMemberIndexes` of `pkg/billing/beacon.go`: the slot
indexes of the group occupied by the operator, compared lowercased. -/
def getGroupMemberIndexes (operatorAddress : String) (g : Group) : List Nat :=
  ((g.members.filter (fun m => lower operatorAddress == lower m.2)).map Prod.fst)

/-- Embeds `keep.hasMember` of the ecdsa report generator: scans the member
list comparing lowercased addresses. -/
def Keep.hasMember (k : Keep) (address : String) : Bool :=
  k.members.any (fun member => lower address == lower member)

/-- Embeds the `BeaconDataSource` interface: each call either yields a value
or fails with a transport error. -/
structure BeaconDataSource where
  ActiveGroupsCount : Except String Int
  FirstActiveGroupIndex : Except String Int
  GroupPublicKey : Int → Except String (List Nat)
  GroupMembers : List Nat → Except String (List (Nat × String))
  GroupMemberRewards : List Nat → Except String Int
  AreRewardsWithdrawn : String → Int → Except String Bool

/-- Embeds one iteration of the fetch loop of `fetchGroupsData`: fetch the
public key and the members of the group at the given index, wrapping errors
exactly as the Go code does, and derive activity from the threshold. -/
def fetchGroup (ds : BeaconDataSource) (firstActiveGroupIndex index : Int) :
    Except String Group :=
  match ds.GroupPublicKey index with
  | .error e =>
      .error ("could not get public key of group with index [" ++ toString index
        ++ "]: [" ++ e ++ "]")
  | .ok publicKey =>
      match ds.GroupMembers publicKey with
      | .error e =>
          .error ("could not get members of group with index [" ++ toString index
            ++ "]: [" ++ e ++ "]")
      | .ok members =>
          .ok { index := index
                isActive := decide (firstActiveGroupIndex ≤ index)
                publicKey := publicKey
                members := members }

/-- Embeds the index loop of `fetchGroupsData`: visit the given indices in
order, aborting at the first failed fetch. -/
def fetchGroupsLoop (ds : BeaconDataSource) (firstActiveGroupIndex : Int) :
    List Int → Except String (List Group)
  | [] => .ok []
  | index :: rest =>
      match fetchGroup ds firstActiveGroupIndex index with
      | .error e => .error e
      | .ok g =>
          match fetchGroupsLoop ds firstActiveGroupIndex rest with
          | .error e => .error e
          | .ok gs => .ok (g :: gs)

/-- The ascending index sequence `0, 1, ..., n-1` walked by the Go
`for index := int64(0); index < n; index++` loop. -/
def intRange (n : Int) : List Int :=
  (List.range n.toNat).map Int.ofNat

/-- Embeds `fetchGroupsData` of `src/unnamed/part_007`: fetch the active
group count and the first active index, then walk indices
`0 ..< firstActiveGroupIndex + activeGroupsCount` in ascending order,
failing fast on any error. -/
def fetchGroupsData (ds : BeaconDataSource) : Except String (List Group) :=
  match ds.ActiveGroupsCount with
  | .error e => .error ("could not get active groups count: [" ++ e ++ "]")
  | .ok activeGroupsCount =>
      match ds.FirstActiveGroupIndex with
      | .error e =>
          .error ("could not get first active group index: [" ++ e ++ "]")
      | .ok firstActiveGroupIndex =>
          fetchGroupsLoop ds firstActiveGroupIndex
            (intRange (firstActiveGroupIndex + activeGroupsCount))

/-- Embeds the group loop of `calculateAccumulatedRewards` of
`src/unnamed/part_007` (result still in wei): skip a group whose rewards are
withdrawn for the operator, otherwise add the per-member reward times the
operator slot count; fail fast on any data-source error. -/
def calculateAccumulatedRewardsWei (ds : BeaconDataSource) (operator : String) :
    List Group → Except String Int
  | [] => .ok 0
  | g :: rest =>
      match ds.AreRewardsWithdrawn operator g.index with
      | .error e => .error e
      | .ok true => calculateAccumulatedRewardsWei ds operator rest
      | .ok false =>
          match ds.GroupMemberRewards g.publicKey with
          | .error e => .error e
          | .ok memberRewards =>
              match calculateAccumulatedRewardsWei ds operator rest with
              | .error e => .error e
              | .ok acc =>
                  .ok (memberRewards * (countActiveGroupMembers operator g : Int) + acc)

/-- Embeds `calculateAccumulatedRewards` of `src/unnamed/part_007`: the wei
total is converted with `chain.WeiToEth` exactly once, at the end. -/
def calculateAccumulatedRewards (ds : BeaconDataSource) (operator : String)
    (groups : List Group) : Except String ℚ :=
  (calculateAccumulatedRewardsWei ds operator groups).map WeiToEth

/-- Embeds the `EcdsaDataSource` interface: `Keeps` yields the active and
the inactive keep maps (as association lists in iteration order),
`KeepMembers` the member addresses of one keep. -/
structure EcdsaDataSource where
  Keeps : Except String (List (Int × String) × List (Int × String))
  KeepMembers : String → Except String (List String)

/-- Embeds one of the two fetch loops of `fetchKeepsData` of
`src/unnamed/part_010`: materialize each (index, address) pair into a keep
with the given activity flag, wrapping member-fetch errors with the given
message fragment. -/
def fetchKeepsLoop (ds : EcdsaDataSource) (isActive : Bool) (msgPart : String) :
    List (Int × String) → Except String (List Keep)
  | [] => .ok []
  | (index, address) :: rest =>
      match ds.KeepMembers address with
      | .error e =>
          .error ("could not get members of " ++ msgPart ++ " [" ++ address
            ++ "]: [" ++ e ++ "]")
      | .ok members =>
          match fetchKeepsLoop ds isActive msgPart rest with
          | .error e => .error e
          | .ok ks =>
              .ok ({ index := index
                     isActive := isActive
                     address := address
                     members := members } :: ks)

/-- Embeds `fetchKeepsData` of `src/unnamed/part_010`: the active keeps are
materialized first, in the iteration order of the active map, then the
inactive keeps, in the iteration order of the inactive map. -/
def fetchKeepsData (ds : EcdsaDataSource) : Except String (List Keep) :=
  match ds.Keeps with
  | .error e => .error ("could not get keeps: [" ++ e ++ "]")
  | .ok (activeKeeps, inactiveKeeps) =>
      match fetchKeepsLoop ds true "an active keep" activeKeeps with
      | .error e => .error e
      | .ok actives =>
          match fetchKeepsLoop ds false "inactive keep" inactiveKeeps with
          | .error e => .error e
          | .ok inactives => .ok (actives ++ inactives)

/-- Embeds `GroupMembers` of `pkg/chain/ethereum.go`: the chain returns the
member addresses as a slice, and the map entry for position `i` of the
slice is keyed `i+1` (the address string stands for `address.Hex()`). -/
def EthereumClient.GroupMembers (addresses : List String) : List (Nat × String) :=
  addresses.enum.map (fun p => (p.1 + 1, p.2))

/-- Embeds the four-argument `calculateFinalBeaconRewards` of
`pkg/billing/beacon.go` (lines 874-909): pure share formulas with no
operational-cost handling.  Returns (customer ETH share, provider ETH
share, customer KEEP share, provider KEEP share). -/
def calculateFinalBeaconRewards (customerSharePercentage beneficiaryEthBalance
    beneficiaryKeepBalance accumulatedEthRewards : ℚ) : ℚ × ℚ × ℚ × ℚ :=
  let customerKeepRewardShare :=
    beneficiaryKeepBalance * customerSharePercentage / 100
  let providerKeepRewardShare :=
    beneficiaryKeepBalance - customerKeepRewardShare
  let customerAccumulatedEthRewardShare :=
    accumulatedEthRewards * customerSharePercentage / 100
  let customerEthRewardShare :=
    customerAccumulatedEthRewardShare + beneficiaryEthBalance
  let providerEthRewardShare :=
    accumulatedEthRewards - customerAccumulatedEthRewardShare
  (customerEthRewardShare, providerEthRewardShare,
    customerKeepRewardShare, providerKeepRewardShare)

/-- Embeds the six-argument `calculateFinalBeaconRewards` of
`src/unnamed/part_007` (lines 307-383): computes the operational costs and
clamps shares on the two anomaly branches.  Returns (operational costs,
customer ETH share, provider ETH share, customer KEEP share, provider KEEP
share). -/
def calculateFinalBeaconRewardsOps (initialOperatorEthBalance
    customerSharePercentage operatorEthBalance beneficiaryEthBalance
    beneficiaryKeepBalance accumulatedEthRewards : ℚ) : ℚ × ℚ × ℚ × ℚ × ℚ :=
  let operationalCosts := initialOperatorEthBalance - operatorEthBalance
  if operationalCosts < 0 then
    (0, 0, 0, 0, 0)
  else
    let customerKeepRewardShare :=
      beneficiaryKeepBalance * customerSharePercentage / 100
    let providerKeepRewardShare :=
      beneficiaryKeepBalance - customerKeepRewardShare
    let ethNetRewards :=
      accumulatedEthRewards + beneficiaryEthBalance - operationalCosts
    if ethNetRewards < 0 then
      (0, 0, 0, customerKeepRewardShare, providerKeepRewardShare)
    else
      let customerEthRewardShare :=
        ethNetRewards * customerSharePercentage / 100
      let providerEthRewardShare :=
        ethNetRewards - customerEthRewardShare
      (operationalCosts, customerEthRewardShare, providerEthRewardShare,
        customerKeepRewardShare, providerKeepRewardShare)

/-- Unfolding lemma: a successful single-group fetch pins the group fields
to the data-source answers. -/
lemma fetchGroup_ok {ds : BeaconDataSource} {first i : Int} {g : Group}
    (h : fetchGroup ds first i = .ok g) :
    g.index = i ∧ ds.GroupPublicKey i = .ok g.publicKey ∧
      ds.GroupMembers g.publicKey = .ok g.members := by
  unfold fetchGroup at h
  split at h
  · exact Except.noConfusion h
  · rename_i pk hpk
    split at h
    · exact Except.noConfusion h
    · rename_i ms hms
      injection h with h
      subst h
      exact ⟨rfl, hpk, hms⟩

/-- Loop lemma: a successful fetch loop materializes exactly the visited
indices, in order, with every data-source call succeeding. -/
lemma fetchGroupsLoop_ok {ds : BeaconDataSource} {first : Int} :
    ∀ {l : List Int} {gs : List Group},
      fetchGroupsLoop ds first l = .ok gs →
      gs.map Group.index = l ∧
        ∀ g ∈ gs, ds.GroupPublicKey g.index = .ok g.publicKey ∧
          ds.GroupMembers g.publicKey = .ok g.members := by
  intro l
  induction l with
  | nil =>
      intro gs h
      simp only [fetchGroupsLoop] at h
      injection h with h
      subst h
      simp
  | cons i rest ih =>
      intro gs h
      simp only [fetchGroupsLoop] at h
      split at h
      · exact Except.noConfusion h
      · rename_i g hg
        split at h
        · exact Except.noConfusion h
        · rename_i gs2 hrest
          injection h with h
          subst h
          obtain ⟨hmap, hcalls⟩ := ih hrest
          obtain ⟨hidx, hpk, hms⟩ := fetchGroup_ok hg
          constructor
          · simp [hmap, hidx]
          · intro g2 hg2
            rcases List.mem_cons.mp hg2 with h2 | h2
            · subst h2
              refine ⟨?_, hms⟩
              rw [hidx]
              exact hpk
            · exact hcalls g2 h2

/-- The walked index sequence is strictly increasing. -/
lemma intRange_pairwise (n : Int) : List.Pairwise (· < ·) (intRange n) := by
  unfold intRange
  refine List.Pairwise.map Int.ofNat (fun a b hab => ?_)
    (List.pairwise_lt_range n.toNat)
  exact Int.ofNat_lt.mpr hab

/-- Loop lemma for the ecdsa keep fetch: a successful loop yields the input
pairs in order, all with the given activity flag. -/
lemma fetchKeepsLoop_ok {ds : EcdsaDataSource} {act : Bool} {msg : String} :
    ∀ {l : List (Int × String)} {ks : List Keep},
      fetchKeepsLoop ds act msg l = .ok ks →
      ks.map (fun kp => (kp.index, kp.isActive)) = l.map (fun q => (q.1, act)) := by
  intro l
  induction l with
  | nil =>
      intro ks h
      simp only [fetchKeepsLoop] at h
      injection h with h
      subst h
      simp
  | cons q rest ih =>
      intro ks h
      obtain ⟨qi, qa⟩ := q
      simp only [fetchKeepsLoop] at h
      split at h
      · exact Except.noConfusion h
      · rename_i members hm
        split at h
        · exact Except.noConfusion h
        · rename_i ks2 hrest
          injection h with h
          subst h
          simp [ih hrest]

/-- Formula lemma: over an error-free data source described by a withdrawal
predicate and a reward table, the wei accumulator computes the filtered
weighted sum. -/
lemma calculateAccumulatedRewardsWei_formula (ds : BeaconDataSource)
    (operator : String) (w : Int → Bool) (rewards : List Nat → Int) :
    ∀ groups : List Group,
      (∀ g ∈ groups, ds.AreRewardsWithdrawn operator g.index = .ok (w g.index)) →
      (∀ g ∈ groups, ds.GroupMemberRewards g.publicKey = .ok (rewards g.publicKey)) →
      calculateAccumulatedRewardsWei ds operator groups =
        .ok (((groups.filter (fun g => !w g.index)).map
          (fun g => rewards g.publicKey *
            (countActiveGroupMembers operator g : Int))).sum) := by
  intro groups
  induction groups with
  | nil => intro _ _; rfl
  | cons g rest ih =>
      intro hw hr
      have ihr := ih (fun g2 hg2 => hw g2 (List.mem_cons_of_mem g hg2))
        (fun g2 hg2 => hr g2 (List.mem_cons_of_mem g hg2))
      have hgw := hw g (List.mem_cons_self g rest)
      have hgr := hr g (List.mem_cons_self g rest)
      cases hwg : w g.index with
      | true =>
          rw [hwg] at hgw
          simp [calculateAccumulatedRewardsWei, hgw, ihr, List.filter_cons, hwg]
      | false =>
          rw [hwg] at hgw
          simp [calculateAccumulatedRewardsWei, hgw, hgr, ihr,
            List.filter_cons, hwg]

/-- Completeness lemma: a successful wei accumulation implies every
withdrawal check succeeded, and every reward fetch needed for a
not-withdrawn group succeeded. -/
lemma calculateAccumulatedRewardsWei_ok {ds : BeaconDataSource}
    {operator : String} :
    ∀ {groups : List Group} {t : Int},
      calculateAccumulatedRewardsWei ds operator groups = .ok t →
      ∀ g ∈ groups, ∃ wd : Bool,
        ds.AreRewardsWithdrawn operator g.index = .ok wd ∧
          (wd = false → ∃ mr : Int, ds.GroupMemberRewards g.publicKey = .ok mr) := by
  intro groups
  induction groups with
  | nil => intro t _ g hg; exact absurd hg (List.not_mem_nil g)
  | cons g rest ih =>
      intro t h
      simp only [calculateAccumulatedRewardsWei] at h
      split at h
      · exact Except.noConfusion h
      · rename_i hwd
        intro g2 hg2
        rcases List.mem_cons.mp hg2 with h2 | h2
        · subst h2
          exact ⟨true, hwd, fun hf => Bool.noConfusion hf⟩
        · exact ih h g2 h2
      · rename_i hwd
        split at h
        · exact Except.noConfusion h
        · rename_i mr hmr
          split at h
          · exact Except.noConfusion h
          · rename_i acc hacc
            intro g2 hg2
            rcases List.mem_cons.mp hg2 with h2 | h2
            · subst h2
              exact ⟨false, hwd, fun _ => ⟨mr, hmr⟩⟩
            · exact ih hacc g2 h2

/-- Branch lemma: negative operational costs clamp every output of the
six-argument split to zero. -/
lemma calcOps_neg_costs {i p o b k r : ℚ} (h : i - o < 0) :
    calculateFinalBeaconRewardsOps i p o b k r = (0, 0, 0, 0, 0) := by
  simp only [calculateFinalBeaconRewardsOps]
  rw [if_pos h]

/-- Branch lemma: non-negative costs but negative net ETH rewards clamp the
cost output and the ETH shares while the KEEP shares keep their values. -/
lemma calcOps_neg_net {i p o b k r : ℚ} (hc : ¬i - o < 0)
    (hn : r + b - (i - o) < 0) :
    calculateFinalBeaconRewardsOps i p o b k r =
      (0, 0, 0, k * p / 100, k - k * p / 100) := by
  simp only [calculateFinalBeaconRewardsOps]
  rw [if_neg hc, if_pos hn]

/-- Branch lemma: the plain branch of the six-argument split. -/
lemma calcOps_normal {i p o b k r : ℚ} (hc : ¬i - o < 0)
    (hn : ¬r + b - (i - o) < 0) :
    calculateFinalBeaconRewardsOps i p o b k r =
      (i - o, (r + b - (i - o)) * p / 100,
        (r + b - (i - o)) - (r + b - (i - o)) * p / 100,
        k * p / 100, k - k * p / 100) := by
  simp only [calculateFinalBeaconRewardsOps]
  rw [if_neg hc, if_neg hn]

/-- C1: for every share percentage p in [0,100] and every beneficiary ETH
balance b, beneficiary KEEP balance k and accumulated reward r, the split
returns customerEthShare = r*p/100 + b, providerEthShare = r - r*p/100,
customerKeepShare = k*p/100, providerKeepShare = k - k*p/100; in particular
for p=80, b=1.22, k=1.924875, r=0.285758 it returns (1.4486064, 0.0571516,
1.5399, 0.384975). -/
theorem spec_C1 :
    (∀ p b k r : ℚ, 0 ≤ p → p ≤ 100 →
      calculateFinalBeaconRewards p b k r =
        (r * p / 100 + b, r - r * p / 100, k * p / 100, k - k * p / 100))
    ∧ calculateFinalBeaconRewards 80 1.22 1.924875 0.285758 =
        (1.4486064, 0.0571516, 1.5399, 0.384975) := by
  refine ⟨fun p b k r _ _ => rfl, ?_⟩
  norm_num [calculateFinalBeaconRewards]

/-- Witness for C1 at the concrete scenario p=80, b=1.22, k=1.924875,
r=0.285758. -/
theorem spec_C1_witness :
    (0 : ℚ) ≤ 80 ∧ (80 : ℚ) ≤ 100 ∧
      calculateFinalBeaconRewards 80 1.22 1.924875 0.285758 =
        (0.285758 * 80 / 100 + 1.22, 0.285758 - 0.285758 * 80 / 100,
          1.924875 * 80 / 100, 1.924875 - 1.924875 * 80 / 100) :=
  ⟨by norm_num, by norm_num,
    spec_C1.1 80 1.22 1.924875 0.285758 (by norm_num) (by norm_num)⟩

/-- C3: for every percentage p in [0,100], customer plus provider share
equals the total being split within 1e-9: for the coin-with-accumulated-
reward formula the total is accumulatedReward + beneficiaryBalance, for the
pure-balance KEEP formula it is the KEEP balance; in the operational-cost
variant the KEEP sum equals the KEEP balance whenever costs are
non-negative, and the ETH sum equals the net total being split on the
normal branch. -/
theorem spec_C3 :
    (∀ p b k r : ℚ, 0 ≤ p → p ≤ 100 →
      |(calculateFinalBeaconRewards p b k r).1 +
          (calculateFinalBeaconRewards p b k r).2.1 - (r + b)| ≤ 1 / 10 ^ 9 ∧
        |(calculateFinalBeaconRewards p b k r).2.2.1 +
            (calculateFinalBeaconRewards p b k r).2.2.2 - k| ≤ 1 / 10 ^ 9)
    ∧ (∀ i p o b k r : ℚ, 0 ≤ p → p ≤ 100 → 0 ≤ i - o →
        |(calculateFinalBeaconRewardsOps i p o b k r).2.2.2.1 +
            (calculateFinalBeaconRewardsOps i p o b k r).2.2.2.2 - k| ≤
          1 / 10 ^ 9 ∧
          (0 ≤ r + b - (i - o) →
            |(calculateFinalBeaconRewardsOps i p o b k r).2.1 +
                (calculateFinalBeaconRewardsOps i p o b k r).2.2.1 -
                  (r + b - (i - o))| ≤ 1 / 10 ^ 9)) := by
  constructor
  · intro p b k r _ _
    constructor
    · have h : (calculateFinalBeaconRewards p b k r).1 +
          (calculateFinalBeaconRewards p b k r).2.1 - (r + b) = 0 := by
        simp only [calculateFinalBeaconRewards]
        ring
      rw [h]
      norm_num
    · have h : (calculateFinalBeaconRewards p b k r).2.2.1 +
          (calculateFinalBeaconRewards p b k r).2.2.2 - k = 0 := by
        simp only [calculateFinalBeaconRewards]
        ring
      rw [h]
      norm_num
  · intro i p o b k r _ _ hc
    have hcn : ¬i - o < 0 := not_lt.mpr hc
    constructor
    · by_cases hn : r + b - (i - o) < 0
      · rw [calcOps_neg_net hcn hn]
        have h : k * p / 100 + (k - k * p / 100) - k = 0 := by ring
        simp only [h]
        norm_num
      · rw [calcOps_normal hcn hn]
        have h : k * p / 100 + (k - k * p / 100) - k = 0 := by ring
        simp only [h]
        norm_num
    · intro hnet
      rw [calcOps_normal hcn (not_lt.mpr hnet)]
      have h : (r + b - (i - o)) * p / 100 +
          ((r + b - (i - o)) - (r + b - (i - o)) * p / 100) -
            (r + b - (i - o)) = 0 := by ring
      simp only [h]
      norm_num

/-- Witness for C3 at p=80, b=1.22, k=1.924875, r=0.285758. -/
theorem spec_C3_witness :
    (0 : ℚ) ≤ 80 ∧ (80 : ℚ) ≤ 100 ∧
      (|(calculateFinalBeaconRewards 80 1.22 1.924875 0.285758).1 +
          (calculateFinalBeaconRewards 80 1.22 1.924875 0.285758).2.1 -
            (0.285758 + 1.22)| ≤ 1 / 10 ^ 9 ∧
        |(calculateFinalBeaconRewards 80 1.22 1.924875 0.285758).2.2.1 +
            (calculateFinalBeaconRewards 80 1.22 1.924875 0.285758).2.2.2 -
              1.924875| ≤ 1 / 10 ^ 9) :=
  ⟨by norm_num, by norm_num,
    spec_C3.1 80 1.22 1.924875 0.285758 (by norm_num) (by norm_num)⟩

/-- C4: a negative operational cost (initial operator balance below current
operator balance) makes the six-argument split return normally with every
coin-share output and the operational-cost output clamped to zero. -/
theorem spec_C4 :
    ∀ i p o b k r : ℚ, i - o < 0 →
      calculateFinalBeaconRewardsOps i p o b k r = (0, 0, 0, 0, 0) :=
  fun _ _ _ _ _ _ h => calcOps_neg_costs h

/-- Witness for C4 at the test-file scenario (initial 2, current 3). -/
theorem spec_C4_witness :
    (2 : ℚ) - 3 < 0 ∧
      calculateFinalBeaconRewardsOps 2 50 3 1 1 1 = (0, 0, 0, 0, 0) :=
  ⟨by norm_num, spec_C4 2 50 3 1 1 1 (by norm_num)⟩

/-- C5: with non-negative operational cost but negative net ETH reward, the
six-argument split returns normally with the customer and provider ETH
shares clamped to zero. -/
theorem spec_C5 :
    ∀ i p o b k r : ℚ, 0 ≤ i - o → r + b - (i - o) < 0 →
      (calculateFinalBeaconRewardsOps i p o b k r).2.1 = 0 ∧
        (calculateFinalBeaconRewardsOps i p o b k r).2.2.1 = 0 := by
  intro i p o b k r hc hn
  rw [calcOps_neg_net (not_lt.mpr hc) hn]
  exact ⟨rfl, rfl⟩

/-- Witness for C5 at the test-file scenario (costs 1, net reward -1). -/
theorem spec_C5_witness :
    (0 : ℚ) ≤ 2 - 1 ∧ (0 : ℚ) + 0 - (2 - 1) < 0 ∧
      ((calculateFinalBeaconRewardsOps 2 50 1 0 0 0).2.1 = 0 ∧
        (calculateFinalBeaconRewardsOps 2 50 1 0 0 0).2.2.1 = 0) :=
  ⟨by norm_num, by norm_num, spec_C5 2 50 1 0 0 0 (by norm_num) (by norm_num)⟩

/-- C10: in the negative-net-reward branch the operational-cost output and
both ETH shares are zero while the KEEP shares keep their ordinary values
k*p/100 and k - k*p/100. -/
theorem spec_C10 :
    ∀ i p o b k r : ℚ, 0 ≤ i - o → r + b - (i - o) < 0 →
      calculateFinalBeaconRewardsOps i p o b k r =
        (0, 0, 0, k * p / 100, k - k * p / 100) :=
  fun _ _ _ _ _ _ hc hn => calcOps_neg_net (not_lt.mpr hc) hn

/-- Witness for C10 at the test-file KEEP scenario (costs 1, net -1,
KEEP balance 9, percentage 50). -/
theorem spec_C10_witness :
    (0 : ℚ) ≤ 2 - 1 ∧ (0 : ℚ) + 0 - (2 - 1) < 0 ∧
      calculateFinalBeaconRewardsOps 2 50 1 0 9 0 =
        (0, 0, 0, 9 * 50 / 100, 9 - 9 * 50 / 100) :=
  ⟨by norm_num, by norm_num, spec_C10 2 50 1 0 9 0 (by norm_num) (by norm_num)⟩

/-- C2: accumulate returns exactly the sum, over the cohorts whose rewards
are not withdrawn for (operator, index), of the per-member reward times the
number of (slot, address) pairs whose address case-insensitively equals the
operator, summed in integer wei and divided by 10^18 exactly once. -/
theorem spec_C2 :
    ∀ (ds : BeaconDataSource) (operator : String) (groups : List Group)
      (w : Int → Bool) (rewards : List Nat → Int),
      (∀ g ∈ groups, ds.AreRewardsWithdrawn operator g.index = .ok (w g.index)) →
      (∀ g ∈ groups, ds.GroupMemberRewards g.publicKey = .ok (rewards g.publicKey)) →
      calculateAccumulatedRewards ds operator groups =
        .ok ((((groups.filter (fun g => !w g.index)).map
          (fun g => rewards g.publicKey *
            (countActiveGroupMembers operator g : Int))).sum : ℚ) / 10 ^ 18) := by
  intro ds operator groups w rewards hw hr
  unfold calculateAccumulatedRewards
  rw [calculateAccumulatedRewardsWei_formula ds operator w rewards groups hw hr]
  rfl

/-- Data source for the C2 witness: group 1 has its rewards withdrawn, the
per-member reward of group 0 is 7 wei. -/
def rewardWitnessDS : BeaconDataSource where
  ActiveGroupsCount := .ok 2
  FirstActiveGroupIndex := .ok 0
  GroupPublicKey := fun i => .ok [i.toNat]
  GroupMembers := fun _ => .ok []
  GroupMemberRewards := fun pk => .ok (if pk == [0] then 7 else 9)
  AreRewardsWithdrawn := fun _ i => .ok (i == 1)

/-- Witness group with the operator in two slots under different casing. -/
def witnessGroup1 : Group :=
  { index := 0, isActive := true, publicKey := [0],
    members := [(1, "0xA"), (2, "0xa")] }

/-- Witness group whose rewards are withdrawn. -/
def witnessGroup2 : Group :=
  { index := 1, isActive := true, publicKey := [1], members := [(1, "0xa")] }

/-- Witness for C2: the double-slot group contributes 7 wei twice, the
withdrawn group contributes nothing, and the total is divided by 10^18. -/
theorem spec_C2_witness :
    calculateAccumulatedRewards rewardWitnessDS "0xA"
        [witnessGroup1, witnessGroup2] = .ok (14 / 10 ^ 18) := by
  have h := spec_C2 rewardWitnessDS "0xA" [witnessGroup1, witnessGroup2]
    (fun i => i == 1) (fun pk => if pk == [0] then 7 else 9)
    (by intro g hg; fin_cases hg <;> rfl)
    (by intro g hg; fin_cases hg <;> rfl)
  rw [h]
  have hsum : ((([witnessGroup1, witnessGroup2].filter
      (fun g => !(g.index == 1))).map
        (fun g => (if g.publicKey == [0] then (7 : Int) else 9) *
          (countActiveGroupMembers "0xA" g : Int))).sum) = 14 := by decide
  rw [hsum]
  norm_num

/-- C6: two operator strings that agree after lowercasing give identical
slot counts, identical member-index lists, identical keep membership and,
over a data source whose withdrawal query respects casing, an identical
accumulated total. -/
theorem spec_C6 :
    ∀ op1 op2 : String, lower op1 = lower op2 →
      (∀ g : Group, countActiveGroupMembers op1 g = countActiveGroupMembers op2 g) ∧
        (∀ g : Group, getGroupMemberIndexes op1 g = getGroupMemberIndexes op2 g) ∧
        (∀ k : Keep, k.hasMember op1 = k.hasMember op2) ∧
        (∀ (ds : BeaconDataSource) (groups : List Group),
          (∀ s t : String, ∀ i : Int, lower s = lower t →
            ds.AreRewardsWithdrawn s i = ds.AreRewardsWithdrawn t i) →
          calculateAccumulatedRewards ds op1 groups =
            calculateAccumulatedRewards ds op2 groups) := by
  intro op1 op2 h
  refine ⟨fun g => ?_, fun g => ?_, fun k => ?_, fun ds groups hds => ?_⟩
  · simp only [countActiveGroupMembers, h]
  · simp only [getGroupMemberIndexes, h]
  · simp only [Keep.hasMember, h]
  · unfold calculateAccumulatedRewards
    have hwei : ∀ gl : List Group,
        calculateAccumulatedRewardsWei ds op1 gl =
          calculateAccumulatedRewardsWei ds op2 gl := by
      intro gl
      induction gl with
      | nil => rfl
      | cons g rest ih =>
          simp only [calculateAccumulatedRewardsWei, hds op1 op2 g.index h, ih,
            countActiveGroupMembers, h]
    rw [hwei]

/-- Group used by the C6 witness, holding the operator under two casings. -/
def caseGroup : Group :=
  { index := 0, isActive := true, publicKey := [],
    members := [(1, "0xAb"), (2, "0xaB")] }

/-- Witness for C6 at the operator casings 0xAB and 0xab. -/
theorem spec_C6_witness :
    lower "0xAB" = lower "0xab" ∧
      countActiveGroupMembers "0xAB" caseGroup =
        countActiveGroupMembers "0xab" caseGroup :=
  ⟨by decide, (spec_C6 "0xAB" "0xab" (by decide)).1 caseGroup⟩

/-- C7: a successful snapshot build implies the count, threshold, key and
member calls all succeeded and the snapshot covers the whole index range
(no partial list); a failing count call propagates its error wrapped as the
Go code wraps it; a successful accumulation implies every withdrawal check
and every needed reward fetch succeeded (no partial sum); a failing
withdrawal check on the first group propagates its error unmodified. -/
theorem spec_C7 :
    (∀ (ds : BeaconDataSource) (gs : List Group),
      fetchGroupsData ds = .ok gs →
      ∃ n first : Int, ds.ActiveGroupsCount = .ok n ∧
        ds.FirstActiveGroupIndex = .ok first ∧
        gs.map Group.index = intRange (first + n) ∧
        ∀ g ∈ gs, ds.GroupPublicKey g.index = .ok g.publicKey ∧
          ds.GroupMembers g.publicKey = .ok g.members)
    ∧ (∀ (ds : BeaconDataSource) (e : String),
        ds.ActiveGroupsCount = .error e →
        fetchGroupsData ds =
          .error ("could not get active groups count: [" ++ e ++ "]"))
    ∧ (∀ (ds : BeaconDataSource) (operator : String) (groups : List Group)
        (q : ℚ),
        calculateAccumulatedRewards ds operator groups = .ok q →
        ∀ g ∈ groups, ∃ wd : Bool,
          ds.AreRewardsWithdrawn operator g.index = .ok wd ∧
            (wd = false → ∃ mr : Int, ds.GroupMemberRewards g.publicKey = .ok mr))
    ∧ (∀ (ds : BeaconDataSource) (operator : String) (g : Group)
        (rest : List Group) (e : String),
        ds.AreRewardsWithdrawn operator g.index = .error e →
        calculateAccumulatedRewards ds operator (g :: rest) = .error e) := by
  refine ⟨?_, ?_, ?_, ?_⟩
  · intro ds gs h
    unfold fetchGroupsData at h
    split at h
    · exact Except.noConfusion h
    · rename_i n hn
      split at h
      · exact Except.noConfusion h
      · rename_i first hfirst
        obtain ⟨hmap, hcalls⟩ := fetchGroupsLoop_ok h
        exact ⟨n, first, hn, hfirst, hmap, hcalls⟩
  · intro ds e he
    unfold fetchGroupsData
    rw [he]
  · intro ds operator groups q h
    unfold calculateAccumulatedRewards at h
    cases hw : calculateAccumulatedRewardsWei ds operator groups with
    | error e => rw [hw] at h; simp [Except.map] at h
    | ok t => exact calculateAccumulatedRewardsWei_ok hw
  · intro ds operator g rest e he
    unfold calculateAccumulatedRewards
    simp only [calculateAccumulatedRewardsWei, he]
    rfl

/-- Data source whose group-count call fails, for the C7 witness. -/
def failingCountDS : BeaconDataSource where
  ActiveGroupsCount := .error "boom"
  FirstActiveGroupIndex := .ok 0
  GroupPublicKey := fun _ => .ok []
  GroupMembers := fun _ => .ok []
  GroupMemberRewards := fun _ => .ok 0
  AreRewardsWithdrawn := fun _ _ => .ok false

/-- Witness for C7: the failing count call aborts the build with the
wrapped error and no group list. -/
theorem spec_C7_witness :
    failingCountDS.ActiveGroupsCount = .error "boom" ∧
      fetchGroupsData failingCountDS =
        .error ("could not get active groups count: [" ++ "boom" ++ "]") :=
  ⟨rfl, spec_C7.2.1 failingCountDS "boom" rfl⟩

/-- C8 (amended): the beacon builder materializes cohorts strictly
ascending by index, while the ecdsa keeps builder returns the active keeps
followed by the inactive keeps in data-source iteration order. -/
theorem spec_C8 :
    (∀ (ds : BeaconDataSource) (gs : List Group),
      fetchGroupsData ds = .ok gs →
      List.Pairwise (fun a b => a.index < b.index) gs)
    ∧ (∀ (ds : EcdsaDataSource) (act inact : List (Int × String))
        (ks : List Keep),
        ds.Keeps = .ok (act, inact) → fetchKeepsData ds = .ok ks →
        ks.map (fun kp => (kp.index, kp.isActive)) =
          act.map (fun q => (q.1, true)) ++ inact.map (fun q => (q.1, false))) := by
  constructor
  · intro ds gs h
    unfold fetchGroupsData at h
    split at h
    · exact Except.noConfusion h
    · rename_i n hn
      split at h
      · exact Except.noConfusion h
      · rename_i first hfirst
        obtain ⟨hmap, _⟩ := fetchGroupsLoop_ok h
        have hp := intRange_pairwise (first + n)
        rw [← hmap] at hp
        exact List.pairwise_map.mp hp
  · intro ds act inact ks hks h
    unfold fetchKeepsData at h
    split at h
    · rename_i e heq
      rw [hks] at heq
      exact Except.noConfusion heq
    · rename_i activeKeeps inactiveKeeps heq
      rw [hks] at heq
      injection heq with heq
      injection heq with heq1 heq2
      subst heq1
      subst heq2
      split at h
      · exact Except.noConfusion h
      · rename_i actives hact
        split at h
        · exact Except.noConfusion h
        · rename_i inactives hinact
          injection h with h
          subst h
          rw [List.map_append, fetchKeepsLoop_ok hact, fetchKeepsLoop_ok hinact]

/-- Ecdsa data source whose active map holds index 2 and whose inactive map
holds index 1: a possible data-source answer under which the materialized
keep sequence is not sorted by index. -/
def ecdsaOutOfOrderDS : EcdsaDataSource where
  Keeps := .ok ([(2, "a")], [(1, "b")])
  KeepMembers := fun _ => .ok []

/-- Counterexample to C8 as stated: the ecdsa keeps builder materializes
index 2 before index 1, so the snapshot is not sorted ascending by cohort
index. -/
theorem spec_C8_cex :
    fetchKeepsData ecdsaOutOfOrderDS =
      .ok [{ index := 2, isActive := true, address := "a", members := [] },
        { index := 1, isActive := false, address := "b", members := [] }] ∧
      ¬ List.Pairwise (fun a b : Keep => a.index < b.index)
        [{ index := 2, isActive := true, address := "a", members := [] },
          { index := 1, isActive := false, address := "b", members := [] }] := by
  refine ⟨rfl, ?_⟩
  intro hp
  have h12 := List.rel_of_pairwise_cons hp (List.mem_singleton.mpr rfl)
  simp at h12

/-- Beacon data source with three groups, for the C8 witness. -/
def orderedBeaconDS : BeaconDataSource where
  ActiveGroupsCount := .ok 2
  FirstActiveGroupIndex := .ok 1
  GroupPublicKey := fun i => .ok [i.toNat]
  GroupMembers := fun _ => .ok []
  GroupMemberRewards := fun _ => .ok 0
  AreRewardsWithdrawn := fun _ _ => .ok false

/-- Witness for the amended C8: a concrete beacon build is sorted ascending
by group index. -/
theorem spec_C8_witness :
    fetchGroupsData orderedBeaconDS =
      .ok [{ index := 0, isActive := false, publicKey := [0], members := [] },
        { index := 1, isActive := true, publicKey := [1], members := [] },
        { index := 2, isActive := true, publicKey := [2], members := [] }] ∧
      List.Pairwise (fun a b : Group => a.index < b.index)
        [{ index := 0, isActive := false, publicKey := [0], members := [] },
          { index := 1, isActive := true, publicKey := [1], members := [] },
          { index := 2, isActive := true, publicKey := [2], members := [] }] :=
  ⟨rfl, spec_C8.1 orderedBeaconDS
    [{ index := 0, isActive := false, publicKey := [0], members := [] },
      { index := 1, isActive := true, publicKey := [1], members := [] },
      { index := 2, isActive := true, publicKey := [2], members := [] }] rfl⟩

/-- C9 (amended): the member slot indices materialized from the chain data
source are dense and one-based: a member list with n entries has exactly
the slot indices 1..n. -/
theorem spec_C9 :
    ∀ addresses : List String,
      (EthereumClient.GroupMembers addresses).map Prod.fst =
        List.range' 1 addresses.length := by
  intro addresses
  unfold EthereumClient.GroupMembers
  rw [List.map_map]
  have h : (Prod.fst ∘ fun p : Nat × String => (p.1 + 1, p.2)) =
      (fun n => n + 1) ∘ Prod.fst := rfl
  rw [h, ← List.map_map, List.enum_map_fst, List.range'_eq_map_range]
  have h2 : ((1 + ·) : ℕ → ℕ) = fun n => n + 1 := by
    funext n
    omega
  rw [h2]

/-- Counterexample to C9 as stated: a one-entry member list is keyed by
slot index 1, not 0. -/
theorem spec_C9_cex :
    (EthereumClient.GroupMembers ["a"]).map Prod.fst = [1] ∧
      ([1] : List Nat) ≠ [0] :=
  ⟨rfl, by decide⟩

end KeepBillings
